import Mathlib

/-!
A verification development for the pigeon-evals retrieval-evaluation
pipeline.  The Python source is shallowly embedded: texts are lists of
characters (or, for the token-level embedder code, lists of token ids),
Python floats are modelled as rationals where the code performs only
field operations and as real numbers where it takes square roots
(L2 norms), fallible code returns an Except value, and stateful code
passes its state explicitly.
-/

namespace PigeonEvals

/-! ## Data model (src/models/documents.py)

Document and DocumentChunk are pydantic models.  DocumentChunk declares
the fields id, text, document, embedding and type_chunk; the embedding
field is optional and defaults to None.  The scalar type of embedding
vectors is a type parameter so that the rational-valued and the
real-valued parts of the development can share the structure. -/

structure Document where
  id : String
  name : String
  path : String
  text : List Char
deriving Repr, DecidableEq

structure DocumentChunk (α : Type) where
  id : String
  text : List Char
  document : Document
  embedding : Option (List α) := none
  type_chunk : Option String := none
deriving Repr, DecidableEq

/-! ## Text splitter (src/parser/builder.py)

TextSplitterBuilder._split_by_character slides a window of chunk_size
characters over the text, advancing by
max(start + chunk_size - chunk_overlap, start + 1) each iteration, so
every iteration advances by at least one character and the loop always
terminates.  Python slicing text[start:end] is (text.drop start).take
(end - start); Python max(start + chunk_size - chunk_overlap, start + 1)
coincides with the Nat expression below because truncated subtraction
only differs when the Python value is negative, in which case both sides
equal start + 1. -/

def splitCharLoop (text : List Char) (chunkSize overlap : Nat) (start : Nat) :
    List (List Char) :=
  if _h : start < text.length then
    if min (start + chunkSize) text.length ≥ text.length then
      [(text.drop start).take (min (start + chunkSize) text.length - start)]
    else
      (text.drop start).take (min (start + chunkSize) text.length - start)
        :: splitCharLoop text chunkSize overlap (max (start + chunkSize - overlap) (start + 1))
  else []
termination_by text.length - start
decreasing_by omega

/-- TextSplitterBuilder._split_by_character: returns the whole text when
chunk_size is None or the text is no longer than chunk_size, otherwise
runs the sliding-window loop from start 0. -/
def splitByCharacter (text : List Char) (chunkSize : Option Nat) (chunkOverlap : Nat) :
    List (List Char) :=
  match chunkSize with
  | none => [text]
  | some cs => if text.length ≤ cs then [text] else splitCharLoop text cs chunkOverlap 0

/-- Python str.strip(): drop whitespace from both ends. -/
def pyStrip (s : List Char) : List Char :=
  ((s.dropWhile Char.isWhitespace).reverse.dropWhile Char.isWhitespace).reverse

/-- Configuration of a character-strategy step: the fields of
models.configs.parser.StepConfig that the character branch of
TextSplitterBuilder._split_text reads. -/
structure CharStepConfig where
  chunk_size : Option Nat
  chunk_overlap : Nat := 0
  keep_empty : Bool := false
  trim_whitespace : Bool := true
deriving Repr, DecidableEq

/-- TextSplitterBuilder._split_text for a step whose strategy is
"character": split by character, then per split optionally strip
whitespace and keep the split when it is non-empty or keep_empty is
set. -/
def splitTextCharacter (text : List Char) (step : CharStepConfig) : List (List Char) :=
  (splitByCharacter text step.chunk_size step.chunk_overlap).filterMap (fun s =>
    let s' := if step.trim_whitespace then pyStrip s else s
    if s' ≠ [] ∨ step.keep_empty then some s' else none)

/-- TextSplitterBuilder._process_step for a character step: every input
chunk is split and each split text becomes a fresh chunk carrying the
parent chunk's document.  The fresh uuid4 id generated by the
DocumentChunk default factory is modelled by the empty string since no
claim depends on the id values of split chunks. -/
def processStepCharacter (chunks : List (DocumentChunk ℚ)) (step : CharStepConfig) :
    List (DocumentChunk ℚ) :=
  chunks.flatMap (fun chunk =>
    (splitTextCharacter chunk.text step).map (fun t =>
      { id := "", text := t, document := chunk.document }))

/-- TextSplitterBuilder._process for a process whose steps are all
character steps: starts from a single chunk holding the whole document
text and applies the steps in order. -/
def processChar (doc : Document) (steps : List CharStepConfig) : List (DocumentChunk ℚ) :=
  steps.foldl processStepCharacter [{ id := "", text := doc.text, document := doc }]

/-- TextSplitterBuilder.process for a parser config whose processes
consist of character steps: runs each process independently on the
document and concatenates the outputs in process order. -/
def splitterProcess (doc : Document) (processes : List (List CharStepConfig)) :
    List (DocumentChunk ℚ) :=
  (processes.map (processChar doc)).flatten

theorem splitCharLoop_join (text : List Char) (cs : Nat) (hcs : 1 ≤ cs) :
    ∀ s, (splitCharLoop text cs 0 s).flatten = text.drop s := by
  have key : ∀ k s, text.length - s ≤ k →
      (splitCharLoop text cs 0 s).flatten = text.drop s := by
    intro k
    induction k with
    | zero =>
      intro s hs
      have hlen : text.length ≤ s := by omega
      rw [splitCharLoop]
      simp [Nat.not_lt.mpr hlen, List.drop_eq_nil_of_le hlen]
    | succ k ih =>
      intro s hs
      rw [splitCharLoop]
      by_cases hlt : s < text.length
      · rw [dif_pos hlt]
        by_cases hend : min (s + cs) text.length ≥ text.length
        · have he : min (s + cs) text.length = text.length := by omega
          rw [if_pos hend, he]
          simp [List.take_of_length_le, List.length_drop]
        · have he : min (s + cs) text.length = s + cs := by omega
          have hmax : max (s + cs - 0) (s + 1) = s + cs := by omega
          rw [if_neg hend, List.flatten_cons, hmax, ih (s + cs) (by omega), he]
          have h1 : s + cs - s = cs := by omega
          have h2 : text.drop (s + cs) = (text.drop s).drop cs := by
            rw [List.drop_drop, Nat.add_comm]
          rw [h1, h2, List.take_append_drop]
      · rw [dif_neg hlt]
        simp [List.drop_eq_nil_of_le (Nat.not_lt.mp hlt)]
  intro s
  exact key (text.length - s) s le_rfl

theorem splitTextCharacter_keep_all (text : List Char) (step : CharStepConfig)
    (hk : step.keep_empty = true) (ht : step.trim_whitespace = false) :
    splitTextCharacter text step
      = splitByCharacter text step.chunk_size step.chunk_overlap := by
  simp [splitTextCharacter, hk, ht]

theorem splitByCharacter_flatten (text : List Char) (n : Nat) (hn : 1 ≤ n) :
    (splitByCharacter text (some n) 0).flatten = text := by
  rw [splitByCharacter]
  by_cases hle : text.length ≤ n
  · simp [hle]
  · rw [if_neg hle]
    simpa using splitCharLoop_join text n hn 0

/-- C2: for every document and every chunk size of at least one, a
parser configuration with a single process holding a single character
step with chunk_overlap zero, keep_empty true and trim_whitespace false
produces chunks whose texts, concatenated in output order, equal the
document text exactly. -/
theorem splitter_character_identity (doc : Document) (step : CharStepConfig)
    (n : Nat) (hn : 1 ≤ n) (hsize : step.chunk_size = some n)
    (hov : step.chunk_overlap = 0) (hk : step.keep_empty = true)
    (ht : step.trim_whitespace = false) :
    ((splitterProcess doc [[step]]).map (fun c => c.text)).flatten = doc.text := by
  have hsplit := splitTextCharacter_keep_all doc.text step hk ht
  simp only [splitterProcess, processChar, List.map_cons, List.map_nil,
    List.foldl_cons, List.foldl_nil, List.flatten_cons, List.flatten_nil,
    List.append_nil, processStepCharacter, List.flatMap_cons, List.flatMap_nil]
  rw [hsplit, hsize, hov]
  simp only [List.map_map, List.append_nil]
  have : ((fun c : DocumentChunk ℚ => c.text) ∘
      fun t => ({ id := "", text := t, document := doc } : DocumentChunk ℚ)) = id := rfl
  rw [this, List.map_id]
  exact splitByCharacter_flatten doc.text n hn

/-- Witness for C2 at a concrete document and chunk size. -/
theorem splitter_character_identity_witness :
    1 ≤ 2 ∧
      ((splitterProcess { id := "d", name := "n", path := "p", text := "abcde".data }
            [[{ chunk_size := some 2, chunk_overlap := 0,
                keep_empty := true, trim_whitespace := false }]]).map
          (fun c => c.text)).flatten = "abcde".data :=
  ⟨by decide,
   splitter_character_identity _ _ 2 (by decide) rfl rfl rfl rfl⟩

/-! ## Embedding base class (src/infra/embedding/base.py)

BaseEmbedder.embed_chunks obtains raw embeddings from the provider
(_embed_chunks_raw, one vector per chunk in order), optionally applies
the configured dimensional reducer by fit_transform over all raw
embeddings, and then rebuilds each chunk by calling the DocumentChunk
constructor.  That constructor call passes the computed vector under the
keyword embeddding (three letters d); the pydantic model DocumentChunk
in src/models/documents.py declares no field of that name — its field is
spelled embedding — and pydantic by default silently ignores unknown
keyword arguments, so the embedding field of every chunk built here
keeps its declared default None. -/

def embedChunks (rawEmbed : DocumentChunk ℚ → List ℚ)
    (reducer : Option (List (List ℚ) → List (List ℚ)))
    (chunks : List (DocumentChunk ℚ)) : List (DocumentChunk ℚ) :=
  let raw := chunks.map rawEmbed
  let reduced := match reducer with
    | some r => r raw
    | none => raw
  (chunks.zip reduced).map (fun ce =>
    { id := ce.1.id, text := ce.1.text, type_chunk := ce.1.type_chunk,
      document := ce.1.document, embedding := none })

def sampleDocument : Document :=
  { id := "d1", name := "doc", path := "p", text := "hello world".data }

def sampleChunk : DocumentChunk ℚ :=
  { id := "c1", text := "hello".data, document := sampleDocument }

/-- C1: at the concrete input list holding one chunk, with a provider
returning the vector [1, 2] and no reducer configured, embed_chunks
preserves the id and the text of the chunk but returns it with embedding
None rather than the computed vector, because the misspelled constructor
keyword embeddding is silently dropped by pydantic. -/
theorem embedChunks_embedding_is_none :
    (embedChunks (fun _ => [1, 2]) none [sampleChunk]).map
        (fun c => (c.id, c.text, c.embedding))
      = [("c1", "hello".data, (none : Option (List ℚ)))] := rfl

/-! ## SQLite text store (src/infra/storage/text/sqlite.py)

The documents table has the primary key id, so INSERT OR REPLACE is an
upsert by id.  The store is modelled as the list of rows in insertion
order. -/

structure SqlRow where
  id : String
  text : List Char
  document_data : Document
  embedding : Option (List ℚ)
deriving Repr, DecidableEq

/-- INSERT OR REPLACE INTO documents keyed by the primary key id. -/
def insertOrReplace (db : List SqlRow) (row : SqlRow) : List SqlRow :=
  if db.any (fun r => r.id = row.id) then
    db.map (fun r => if r.id = row.id then row else r)
  else db ++ [row]

/-- Pydantic attribute access chunk.embeddding: the DocumentChunk model
in src/models/documents.py declares no field of that name (its field is
spelled embedding), so the access raises AttributeError for every
chunk. -/
def getattrEmbeddding (_c : DocumentChunk ℚ) : Except String (List ℚ) :=
  .error "AttributeError: embeddding"

/-- SQLiteDB.store_document_chunk: builds the document_data dict from
chunk.document and executes INSERT OR REPLACE with chunk.id, chunk.text,
the document data and json.dumps(chunk.embeddding).  The attribute
access chunk.embeddding raises AttributeError before the insert runs;
the connection context manager turns it into SQLiteError and the
method's outer except re-raises it as a store failure, so the insert is
never reached and the database is unchanged (the Except error path
carries no new state). -/
def storeDocumentChunk (db : List SqlRow) (chunk : DocumentChunk ℚ) :
    Except String (List SqlRow × Bool) :=
  match getattrEmbeddding chunk with
  | .error _ => .error ("Failed to store document chunk " ++ chunk.id)
  | .ok emb =>
      .ok (insertOrReplace db
        { id := chunk.id, text := chunk.text, document_data := chunk.document,
          embedding := some emb }, true)

/-- SQLiteDB.retrieve_document: SELECT the row by id, returning it or
None. -/
def retrieveDocument (db : List SqlRow) (docId : String) : Option SqlRow :=
  db.find? (fun r => r.id = docId)

/-- C3: at the concrete chunk sampleChunk and the empty store,
store_document_chunk does not return true: it raises SQLiteError because
the attribute access chunk.embeddding fails on the DocumentChunk model,
and nothing is stored, so retrieve_document of the chunk id still
returns None. -/
theorem storeDocumentChunk_always_fails :
    storeDocumentChunk [] sampleChunk = .error "Failed to store document chunk c1"
      ∧ retrieveDocument [] sampleChunk.id = none :=
  ⟨rfl, rfl⟩

/-! ## Pooling (BaseEmbedder._pool in src/infra/embedding/base.py)

The pooling helper works on a rectangular numpy matrix of chunk
vectors.  It is embedded generically over a linear ordered field so the
rational instance stays executable while the real-valued embedder code
can reuse it. -/

inductive PoolError where
  | valueError (msg : String)
  | numpyBroadcast
deriving Repr, DecidableEq

def vecAdd {α : Type} [Add α] (v w : List α) : List α := List.zipWith (· + ·) v w

def vecMax {α : Type} [LinearOrder α] (v w : List α) : List α := List.zipWith max v w

def vecScale {α : Type} [Mul α] (c : α) (v : List α) : List α := v.map (fun x => c * x)

/-- Columnwise sum of a rectangular matrix, numpy sum over axis 0. -/
def colSum {α : Type} [AddMonoid α] (vecs : List (List α)) : List α :=
  vecs.foldr vecAdd (List.replicate (vecs.headD []).length 0)

/-- BaseEmbedder._pool.  mean and max are columnwise; weighted
normalizes the given weights (or all-ones) by their sum, substituting
1.0 as the divisor when the sum is not positive; smooth_decay weights
row i by 0.9 to the power i, normalized; any other strategy raises
ValueError.  A weights list whose length differs from the row count
makes the numpy broadcast fail, modelled as a distinct error (numpy's
special case of broadcasting a single weight over several rows is not
exercised by any claim and is folded into that error).  numpy max over
an empty matrix raises a ValueError of its own. -/
def pool {α : Type} [LinearOrderedField α] (vecs : List (List α)) (strategy : String)
    (weights : Option (List α)) : Except PoolError (List α) :=
  if strategy = "mean" then
    .ok ((colSum vecs).map (fun x => x / (vecs.length : α)))
  else if strategy = "max" then
    match vecs with
    | [] => .error (.valueError "zero-size array to reduction operation maximum")
    | v :: vs => .ok (vs.foldl vecMax v)
  else if strategy = "weighted" then
    let w := weights.getD (List.replicate vecs.length 1)
    if w.length = vecs.length then
      let s := w.sum
      let wn := w.map (fun x => x / (if 0 < s then s else 1))
      .ok (colSum (List.zipWith vecScale wn vecs))
    else .error .numpyBroadcast
  else if strategy = "smooth_decay" then
    let w := (List.range vecs.length).map (fun i => ((9 : α) / 10) ^ i)
    let wn := w.map (fun x => x / w.sum)
    .ok (colSum (List.zipWith vecScale wn vecs))
  else .error (.valueError ("Unknown pooling strategy: " ++ strategy))

/-- C10: for every non-empty matrix and length-compatible weights, _pool
succeeds for each of the four strategies (with or without explicit
weights); weighted pooling with a non-positive weight sum substitutes
1.0 as the divisor, so no division by zero occurs; and a ValueError
arises only for a strategy outside the four. -/
theorem pool_total (vecs : List (List ℚ)) (w : List ℚ)
    (hne : vecs ≠ [])
    (hw : w.length = vecs.length) :
    (∀ s ∈ (["mean", "max", "weighted", "smooth_decay"] : List String),
        (pool vecs s (some w)).isOk = true ∧ (pool vecs s none).isOk = true)
    ∧ (w.sum ≤ 0 →
        pool vecs "weighted" (some w) = .ok (colSum (List.zipWith vecScale w vecs)))
    ∧ (∀ s msg, pool vecs s (some w) = .error (.valueError msg) →
        s ∉ (["mean", "max", "weighted", "smooth_decay"] : List String)) := by
  obtain ⟨v0, vs, rfl⟩ : ∃ v0 vs, vecs = v0 :: vs := by
    cases vecs with
    | nil => exact absurd rfl hne
    | cons v0 vs => exact ⟨v0, vs, rfl⟩
  have hwlen : w.length = (v0 :: vs).length := hw
  refine ⟨?_, ?_, ?_⟩
  · intro s hs
    simp only [List.mem_cons, List.mem_singleton] at hs
    rcases hs with rfl | rfl | rfl | rfl | h
    · exact ⟨rfl, rfl⟩
    · exact ⟨rfl, rfl⟩
    · constructor
      · simp [pool, hwlen, Except.isOk, Except.toBool]
      · simp [pool, Except.isOk, Except.toBool]
    · exact ⟨rfl, rfl⟩
    · exact absurd h (List.not_mem_nil s)
  · intro hsum
    have hns : ¬ (0 : ℚ) < w.sum := not_lt.mpr hsum
    simp only [pool, Option.getD_some, String.reduceEq, if_false, if_pos hwlen, hns,
      if_true]
    simp [div_one]
  · intro s msg herr hmem
    simp only [List.mem_cons, List.mem_singleton] at hmem
    rcases hmem with rfl | rfl | rfl | rfl | h
    · simp [pool] at herr
    · simp [pool] at herr
    · simp only [pool, Option.getD_some, String.reduceEq, if_false, if_pos hwlen,
        if_true] at herr
      exact Except.noConfusion herr
    · simp [pool] at herr
    · exact List.not_mem_nil s h

/-- Witness for C10 at a concrete matrix and weights with zero sum. -/
theorem pool_total_witness :
    ([[(1 : ℚ), 2], [3, 4]] ≠ ([] : List (List ℚ)))
    ∧ ([(1 : ℚ), -1].length = [[(1 : ℚ), 2], [3, 4]].length)
    ∧ ((∀ s ∈ (["mean", "max", "weighted", "smooth_decay"] : List String),
          (pool [[(1 : ℚ), 2], [3, 4]] s (some [1, -1])).isOk = true
            ∧ (pool [[(1 : ℚ), 2], [3, 4]] s none).isOk = true)
        ∧ (([(1 : ℚ), -1].sum ≤ 0) →
            pool [[(1 : ℚ), 2], [3, 4]] "weighted" (some [1, -1])
              = .ok (colSum (List.zipWith vecScale [1, -1] [[(1 : ℚ), 2], [3, 4]])))
        ∧ (∀ s msg,
            pool [[(1 : ℚ), 2], [3, 4]] s (some [1, -1]) = .error (.valueError msg) →
            s ∉ (["mean", "max", "weighted", "smooth_decay"] : List String))) :=
  ⟨by decide, by decide, pool_total [[1, 2], [3, 4]] [1, -1] (by decide) (by decide)⟩

/-! ## Token chunking (OpenAIEmbedder._chunk_by_tokens in
src/infra/embedding/openai_embedder.py)

Texts are identified with their tiktoken token-id sequences: encode and
decode are modelled as the identity, so a text is a List Nat of token
ids and its token count is its length.  The while loop of
_chunk_by_tokens recomputes the next start as max(0, end - overlap),
with no lower bound forcing progress: when overlap is at least the
number of tokens consumed, start does not advance.  The loop is
therefore modelled with explicit fuel, and returns none exactly when no
amount of fuel completes it, which is the shallow-embedding reading of
non-termination of the Python loop. -/

def chunkTokensLoop (ids : List Nat) (maxTokens overlap : Nat) :
    Nat → Nat → Option (List (List Nat))
  | 0, _ => none
  | fuel + 1, start =>
    if start < ids.length then
      if min (start + maxTokens) ids.length = ids.length then
        some [(ids.drop start).take (min (start + maxTokens) ids.length - start)]
      else
        match chunkTokensLoop ids maxTokens overlap fuel
            (min (start + maxTokens) ids.length - overlap) with
        | some rest =>
            some ((ids.drop start).take (min (start + maxTokens) ids.length - start) :: rest)
        | none => none
    else some []

/-- OpenAIEmbedder._chunk_by_tokens: a text of at most max_tokens tokens
is returned whole, otherwise the sliding token window loop runs from
start 0. -/
def chunkByTokens (fuel : Nat) (ids : List Nat) (maxTokens overlap : Nat) :
    Option (List (List Nat)) :=
  if ids.length ≤ maxTokens then some [ids]
  else chunkTokensLoop ids maxTokens overlap fuel 0

/-- C7 counterexample: with chunk_max_tokens 1 and overlap_tokens 1, on
a two-token text the loop never advances past start 0, so no amount of
fuel completes it: the chunking loop does not terminate for every
chunk_max_tokens of at least 1 and overlap_tokens of at least 0. -/
theorem chunkByTokens_diverges_on_full_overlap :
    ¬ ∃ fuel, (chunkByTokens fuel [0, 1] 1 1).isSome = true := by
  rintro ⟨fuel, hfuel⟩
  have key : ∀ f, chunkTokensLoop [0, 1] 1 1 f 0 = none := by
    intro f
    induction f with
    | zero => rfl
    | succ f ih =>
      show (if 0 < 2 then _ else _) = none
      rw [if_pos (by decide)]
      have h1 : min (0 + 1) ([0, 1] : List Nat).length = 1 := by decide
      simp only [List.length_cons, List.length_nil] at *
      rw [if_neg (by decide)]
      have : min (0 + 1) 2 - 1 = 0 := by decide
      rw [this, ih]
  rw [chunkByTokens, if_neg (by decide), key fuel] at hfuel
  exact Bool.noConfusion hfuel

theorem chunkTokensLoop_completes (ids : List Nat) (maxTokens overlap : Nat)
    (hm : 1 ≤ maxTokens) (ho : overlap < maxTokens) :
    ∀ fuel start, start < ids.length → ids.length - start ≤ fuel →
      ∃ cs, chunkTokensLoop ids maxTokens overlap fuel start = some cs
        ∧ ∀ c ∈ cs, c.length ≤ maxTokens := by
  intro fuel
  induction fuel with
  | zero => intro start h1 h2; omega
  | succ fuel ih =>
    intro start h1 h2
    by_cases hend : min (start + maxTokens) ids.length = ids.length
    · refine ⟨[(ids.drop start).take (min (start + maxTokens) ids.length - start)], ?_, ?_⟩
      · show (if start < ids.length then _ else _) = _
        rw [if_pos h1, if_pos hend]
      · intro c hc
        simp only [List.mem_singleton] at hc
        subst hc
        simp only [List.length_take, List.length_drop]
        omega
    · have hlt : start + maxTokens < ids.length := by omega
      have hmin : min (start + maxTokens) ids.length = start + maxTokens := by omega
      obtain ⟨cs, hcs, hbound⟩ :=
        ih (min (start + maxTokens) ids.length - overlap)
          (by omega) (by omega)
      refine ⟨(ids.drop start).take (min (start + maxTokens) ids.length - start) :: cs,
        ?_, ?_⟩
      · show (if start < ids.length then _ else _) = _
        rw [if_pos h1, if_neg hend, hcs]
      · intro c hc
        simp only [List.mem_cons] at hc
        rcases hc with rfl | hc
        · simp only [List.length_take, List.length_drop]
          omega
        · exact hbound c hc

/-- C7 amended: for every token sequence, chunk_max_tokens of at least 1
and overlap_tokens strictly less than chunk_max_tokens, the token
chunking loop terminates (fuel equal to the token count suffices) and
every returned sub-chunk has at most chunk_max_tokens tokens. -/
theorem chunkByTokens_terminates (ids : List Nat) (maxTokens overlap : Nat)
    (hm : 1 ≤ maxTokens) (ho : overlap < maxTokens) :
    ∃ cs, chunkByTokens ids.length ids maxTokens overlap = some cs
      ∧ ∀ c ∈ cs, c.length ≤ maxTokens := by
  rw [chunkByTokens]
  by_cases hle : ids.length ≤ maxTokens
  · rw [if_pos hle]
    exact ⟨[ids], rfl, by intro c hc; simp only [List.mem_singleton] at hc; subst hc; omega⟩
  · rw [if_neg hle]
    exact chunkTokensLoop_completes ids maxTokens overlap hm ho ids.length 0
      (by omega) (by omega)

/-- Witness for the amended C7 at a concrete oversize token sequence. -/
theorem chunkByTokens_terminates_witness :
    1 ≤ 2 ∧ 1 < 2
      ∧ (∃ cs, chunkByTokens ([0, 1, 2] : List Nat).length [0, 1, 2] 2 1 = some cs
          ∧ ∀ c ∈ cs, c.length ≤ 2) :=
  ⟨by decide, by decide, chunkByTokens_terminates [0, 1, 2] 2 1 (by decide) (by decide)⟩

/-! ## Threaded embedding runner (src/runner/embedder_runner.py)

EmbedderRunner._run_embedder_threaded slices the chunk list into
contiguous batches of a computed batch size, runs one task per
non-empty batch, awaits them with asyncio.gather — which returns the
per-task results in task submission order — and flattens the per-task
lists of (chunk, raw embedding) pairs in that order. -/

/-- The per-thread batch size: max(1, n // max_workers), incremented
when n is not a multiple of max_workers. -/
def threadChunkSize (n maxWorkers : Nat) : Nat :=
  if n % maxWorkers ≠ 0 then max 1 (n / maxWorkers) + 1 else max 1 (n / maxWorkers)

/-- Python list slicing chunks[i : i + size] for i in range(0, len, size).
Python range with step 0 raises ValueError; that case is modelled by the
singleton result and is unreachable from the runner, whose batch size is
at least 1. -/
def sliceEvery {α : Type} (n : Nat) : List α → List (List α)
  | [] => []
  | x :: xs =>
    if _h : 0 < n then (x :: xs).take n :: sliceEvery n ((x :: xs).drop n)
    else [x :: xs]
termination_by xs => xs.length
decreasing_by simp only [List.length_drop, List.length_cons]; omega

/-- EmbedderRunner._run_embedder_threaded up to the join of raw results:
one task per non-empty contiguous batch, each returning the zip of its
batch with the raw embeddings that _embed_chunks_raw produces one per
chunk in batch order, flattened in task order. -/
def runEmbedderThreadedRaw {α β : Type} (embedOne : α → β) (chunks : List α)
    (maxWorkers : Nat) : List (α × β) :=
  let batches := sliceEvery (threadChunkSize chunks.length maxWorkers) chunks
  ((batches.filter (fun b => !b.isEmpty)).map (fun b => b.zip (b.map embedOne))).flatten

theorem sliceEvery_flatten {α : Type} (n : Nat) (hn : 0 < n) :
    ∀ xs : List α, (sliceEvery n xs).flatten = xs := by
  have key : ∀ k (xs : List α), xs.length ≤ k → (sliceEvery n xs).flatten = xs := by
    intro k
    induction k with
    | zero =>
      intro xs hxs
      have : xs = [] := List.length_eq_zero.mp (by omega)
      subst this
      rw [sliceEvery]
      rfl
    | succ k ih =>
      intro xs hxs
      cases xs with
      | nil =>
        rw [sliceEvery]
        rfl
      | cons x xs =>
        rw [sliceEvery, dif_pos hn, List.flatten_cons,
          ih ((x :: xs).drop n)
            (by simp only [List.length_drop, List.length_cons] at hxs ⊢; omega),
          List.take_append_drop]
  intro xs
  exact key xs.length xs le_rfl

theorem flatten_filter_nonempty {α : Type} :
    ∀ bs : List (List α), (bs.filter (fun b => !b.isEmpty)).flatten = bs.flatten := by
  intro bs
  induction bs with
  | nil => rfl
  | cons b bs ih =>
    cases b with
    | nil => simpa using ih
    | cons x xs => simpa using ih

/-- C9: for every chunk list of length greater than 1, every max_workers
of at least 1 and every per-chunk raw embedding function, the post-join
sequence of (chunk, raw embedding) pairs obtained by concatenating the
shard results in shard order lists the chunks in exactly the original
input order. -/
theorem threaded_preserves_order {α β : Type} (embedOne : α → β) (chunks : List α)
    (maxWorkers : Nat) (_hlen : 1 < chunks.length) (_hw : 1 ≤ maxWorkers) :
    (runEmbedderThreadedRaw embedOne chunks maxWorkers).map Prod.fst = chunks := by
  have hpos : 0 < threadChunkSize chunks.length maxWorkers := by
    rw [threadChunkSize]
    by_cases h : chunks.length % maxWorkers ≠ 0 <;> simp [h]
  have hmap : ∀ b : List α, ((b.zip (b.map embedOne)).map Prod.fst) = b := by
    intro b
    exact List.map_fst_zip _ _ (by simp)
  simp only [runEmbedderThreadedRaw]
  rw [List.map_flatten, List.map_map]
  simp only [Function.comp_def, hmap, List.map_id']
  rw [flatten_filter_nonempty, sliceEvery_flatten _ hpos]

/-- Witness for C9 at a concrete chunk list and worker count. -/
theorem threaded_preserves_order_witness :
    1 < ([10, 20, 30] : List Nat).length ∧ 1 ≤ 2
      ∧ (runEmbedderThreadedRaw (fun c => c + 1) [10, 20, 30] 2).map Prod.fst
          = [10, 20, 30] :=
  ⟨by decide, by decide, threaded_preserves_order (fun c => c + 1) [10, 20, 30] 2
    (by decide) (by decide)⟩

/-! ## Real-vector helpers

The numeric code below (FAISS similarity, PCA normalization, the
embedder's L2 normalization) takes square roots, so it is embedded over
the real numbers; Python float arithmetic is idealized as exact real
arithmetic. -/

noncomputable def sumSq (v : List ℝ) : ℝ := (v.map (fun x => x * x)).sum

noncomputable def dot (v w : List ℝ) : ℝ := (List.zipWith (· * ·) v w).sum

theorem sumSq_nonneg (v : List ℝ) : 0 ≤ sumSq v := by
  induction v with
  | nil => simp [sumSq]
  | cons x xs ih =>
    simp only [sumSq, List.map_cons, List.sum_cons] at ih ⊢
    have := mul_self_nonneg x
    linarith

theorem sumSq_map_div (v : List ℝ) (c : ℝ) :
    sumSq (v.map (fun x => x / c)) = sumSq v / c ^ 2 := by
  induction v with
  | nil => simp [sumSq]
  | cons x xs ih =>
    simp only [sumSq, List.map_cons, List.sum_cons, List.map_map] at ih ⊢
    rw [show ((fun x => x * x) ∘ fun x => x / c) = (fun x => (x / c) * (x / c)) from rfl] at ih ⊢
    rw [ih]
    ring

/-- The L2 norm of a list of reals after dividing every component by a
nonnegative constant scales the norm by that constant. -/
theorem sqrt_sumSq_map_div (v : List ℝ) (c : ℝ) (hc : 0 ≤ c) :
    Real.sqrt (sumSq (v.map (fun x => x / c))) = Real.sqrt (sumSq v) / c := by
  rw [sumSq_map_div, Real.sqrt_div (sumSq_nonneg v), Real.sqrt_sq hc]

/-- Python int(s) on a string: accepts an optional leading minus sign
followed by decimal digits, rejects (raises ValueError, modelled by
none) anything else.  Exotic accepted forms such as surrounding
whitespace or underscore separators are not exercised by the claims and
are not modelled. -/
def pyParseNat (s : List Char) : Option Nat :=
  if s = [] then none
  else if s.all Char.isDigit then
    some (s.foldl (fun n c => n * 10 + (c.toNat - 48)) 0)
  else none

def pyParseInt (s : List Char) : Option Int :=
  match s with
  | '-' :: rest => (pyParseNat rest).map (fun n => -(n : Int))
  | _ => (pyParseNat s).map (fun n => (n : Int))

/-! ## FAISS vector store (src/infra/storage/vector/faiss.py)

The store keeps an IndexFlatIP of vectors in insertion order and a
metadata dict keyed by consecutive integers 0, 1, ...; both are
modelled by lists indexed by position.  The optional deleted key that
FAISSVectorDB.delete writes into a metadata record is modelled by a
Boolean field that is false on upload (key absent) and set true by
delete. -/

structure FaissMeta where
  chunk_id : String
  text : List Char
  document : Document
  type_chunk : Option String
  deleted : Bool
deriving Repr, DecidableEq

structure FaissState where
  dimension : Nat
  index : List (List ℝ)
  metadata : List FaissMeta

/-- faiss.normalize_L2: divide each component by the vector's L2 norm. -/
noncomputable def normalizeL2 (v : List ℝ) : List ℝ :=
  v.map (fun x => x / Real.sqrt (sumSq v))

/-- FAISSVectorDB.upload: rejects a chunk whose embedding is None or the
empty list, recreates the index (clearing all metadata) when the vector
dimension differs from the current one, then normalizes and appends the
vector and its metadata record; the returned vector id is the metadata
count before the append. -/
noncomputable def upload (st : FaissState) (chunk : DocumentChunk ℝ) :
    Except String (FaissState × Nat) :=
  match chunk.embedding with
  | none => .error ("Failed to upload chunk " ++ chunk.id)
  | some emb =>
    if emb.isEmpty then .error ("Failed to upload chunk " ++ chunk.id)
    else
      let st1 := if emb.length ≠ st.dimension then
          { dimension := emb.length, index := [], metadata := [] } else st
      let vectorId := st1.metadata.length
      let newMeta : FaissMeta :=
        { chunk_id := chunk.id, text := chunk.text, document := chunk.document,
          type_chunk := chunk.type_chunk, deleted := false }
      let st2 : FaissState :=
        { st1 with index := st1.index ++ [normalizeL2 emb],
                   metadata := st1.metadata ++ [newMeta] }
      .ok (st2, vectorId)

/-- IndexFlatIP.search: scores every stored vector by inner product with
the query, sorts descending (stably, so ties keep insertion order),
takes the top k and pads with label -1 when fewer than k vectors are
stored. -/
noncomputable def faissSearch (index : List (List ℝ)) (q : List ℝ) (k : Nat) :
    List (Int × ℝ) :=
  let scored := (List.range index.length).map
    (fun i => (Int.ofNat i, dot q (index.getD i [])))
  ((scored.insertionSort (fun a b : Int × ℝ => b.2 ≤ a.2))
    ++ List.replicate k ((-1 : Int), 0)).take k

structure QueryResult where
  id : String
  score : ℝ
  metadata : Option FaissMeta

/-- The result loop of FAISSVectorDB.query: stops at the first -1 label,
attaches the metadata record when include_metadata is set and the label
is a metadata key, and skips an entry when a filter is supplied and does
not match (the equality filter over the metadata dict is modelled as a
predicate; a filter never matches a missing record, as equality against
an empty dict fails for every key).  The deleted flag is never
consulted. -/
noncomputable def queryLoop (meta : List FaissMeta) (includeMetadata : Bool)
    (filter : Option (FaissMeta → Bool)) : List (Int × ℝ) → List QueryResult
  | [] => []
  | (idx, score) :: rest =>
    if idx = -1 then []
    else
      let m? := if h : 0 ≤ idx ∧ idx.toNat < meta.length
        then some (meta.get ⟨idx.toNat, h.2⟩) else none
      let keep := match filter, m? with
        | none, _ => true
        | some f, some m => f m
        | some _, none => false
      if keep then
        { id := toString idx, score := score,
            metadata := if includeMetadata then m? else none }
          :: queryLoop meta includeMetadata filter rest
      else queryLoop meta includeMetadata filter rest

/-- FAISSVectorDB.query: normalize the query vector, search the index,
run the result loop. -/
noncomputable def query (st : FaissState) (vector : List ℝ) (topK : Nat)
    (includeMetadata : Bool) (filter : Option (FaissMeta → Bool)) : List QueryResult :=
  queryLoop st.metadata includeMetadata filter
    (faissSearch st.index (normalizeL2 vector) topK)

/-- One iteration of FAISSVectorDB.delete: int(vector_id) raises for a
non-numeric id string, otherwise the metadata record under that key, if
any, gets its deleted flag set and the count is incremented. -/
def deleteOne (st : FaissState) (acc : Nat) (vid : String) :
    Except String (FaissState × Nat) :=
  match pyParseInt vid.data with
  | none => .error "Failed to delete vectors"
  | some n =>
    if h : 0 ≤ n ∧ n.toNat < st.metadata.length then
      let m := st.metadata.get ⟨n.toNat, h.2⟩
      .ok ({ st with metadata := st.metadata.set n.toNat { m with deleted := true } },
        acc + 1)
    else .ok (st, acc)

/-- FAISSVectorDB.delete over a list of ids.  A Python exception midway
would leave earlier in-place mutations behind; the claims below only
concern runs in which delete succeeds, where the fold is exact. -/
def deleteIds (st : FaissState) (ids : List String) :
    Except String (FaissState × Nat) :=
  ids.foldlM (fun p vid => deleteOne p.1 p.2 vid) (st, 0)

/-- FAISSVectorDB.retrieve_from_id: int(vector_id) raises for an id
string that is not a decimal integer and the method re-raises it as
FAISSError; for a parsed integer key it returns the metadata record or
None. -/
def retrieveFromId (st : FaissState) (vectorId : String) :
    Except String (Option FaissMeta) :=
  match pyParseInt vectorId.data with
  | none => .error ("Failed to retrieve vector " ++ vectorId)
  | some n =>
    if h : 0 ≤ n ∧ n.toNat < st.metadata.length then
      .ok (some (st.metadata.get ⟨n.toNat, h.2⟩))
    else .ok none

/-- C8 counterexample: retrieve_from_id applied to an id string that is
not a decimal integer — such as an opaque chunk id — raises FAISSError
instead of returning null, because int(vector_id) raises ValueError and
the except clause re-raises it. -/
theorem retrieveFromId_raises_on_opaque_id :
    retrieveFromId { dimension := 768, index := [], metadata := [] } "a3f9"
      = .error "Failed to retrieve vector a3f9" := rfl

/-- C8 amended: for every store state and every id string that parses as
a decimal integer, retrieve_from_id never raises: it returns the stored
metadata record when the integer is a metadata key and null otherwise.
For an id string that is not a decimal integer, int() raises and the
method re-raises FAISSError. -/
theorem retrieveFromId_numeric_never_raises (st : FaissState) (vid : String) (n : Int)
    (hp : pyParseInt vid.data = some n) :
    (∀ h : 0 ≤ n ∧ n.toNat < st.metadata.length,
        retrieveFromId st vid = .ok (some (st.metadata.get ⟨n.toNat, h.2⟩)))
    ∧ (¬ (0 ≤ n ∧ n.toNat < st.metadata.length) →
        retrieveFromId st vid = .ok none) := by
  constructor
  · intro h
    simp only [retrieveFromId, hp]
    rw [dif_pos h]
  · intro h
    simp only [retrieveFromId, hp]
    rw [dif_neg h]

def metaSample : FaissMeta :=
  { chunk_id := "c9", text := "x".data, document := sampleDocument,
    type_chunk := none, deleted := false }

/-- Witness for the amended C8 at a concrete store and numeric id. -/
theorem retrieveFromId_numeric_never_raises_witness :
    pyParseInt ("0" : String).data = some 0
    ∧ ((∀ h : (0 : Int) ≥ 0 ∧ (0 : Int).toNat
          < ({ dimension := 1, index := [], metadata := [metaSample] }
              : FaissState).metadata.length,
        retrieveFromId { dimension := 1, index := [], metadata := [metaSample] } "0"
          = .ok (some (([metaSample] : List FaissMeta).get ⟨(0 : Int).toNat, h.2⟩)))) :=
  ⟨by decide,
   fun h =>
     (retrieveFromId_numeric_never_raises
       { dimension := 1, index := [], metadata := [metaSample] } "0" 0 (by decide)).1
       ⟨h.1, h.2⟩⟩

/-- The chunk used in the C4 counterexample: one-dimensional embedding,
matching the store dimension. -/
noncomputable def faissChunk : DocumentChunk ℝ :=
  { id := "k1", text := "t".data, document := sampleDocument, embedding := some [1] }

def faissMetaUploaded : FaissMeta :=
  { chunk_id := "k1", text := "t".data, document := sampleDocument,
    type_chunk := none, deleted := false }

noncomputable def faissStateUploaded : FaissState :=
  { dimension := 1, index := [normalizeL2 [1]], metadata := [faissMetaUploaded] }

noncomputable def faissStateDeleted : FaissState :=
  { dimension := 1, index := [normalizeL2 [1]],
    metadata := [{ faissMetaUploaded with deleted := true }] }

/-- C4 counterexample: upload one chunk (vector id 0), successfully
delete id 0, then query; the query still returns the entry with id 0
even though its metadata record is marked deleted, because the query
result loop never consults the deleted flag. -/
theorem query_returns_deleted_id :
    ((upload { dimension := 1, index := [], metadata := [] } faissChunk).bind
        (fun p => deleteIds p.1 ["0"])).map
        (fun p => ((query p.1 [1] 1 true none).map QueryResult.id,
                   p.1.metadata.map FaissMeta.deleted))
      = .ok (["0"], [true]) := by
  have hup : upload { dimension := 1, index := [], metadata := [] } faissChunk
      = .ok (faissStateUploaded, 0) := by
    simp [upload, faissChunk, faissStateUploaded, faissMetaUploaded]
  have hp0 : pyParseInt ['0'] = some 0 := by decide
  have hdel : deleteIds faissStateUploaded ["0"]
      = .ok (faissStateDeleted, 1) := by
    simp [deleteIds, deleteOne, List.foldlM, faissStateUploaded, faissStateDeleted, hp0]
  rw [hup]
  simp only [Except.bind]
  rw [hdel]
  simp only [Except.map]
  have hts : toString (0 : Int) = "0" := by decide
  simp [query, faissSearch, queryLoop, faissStateDeleted, faissMetaUploaded,
    List.insertionSort, List.orderedInsert, hts]

/-! ## PCA dimensional reducer
(src/infra/embedding/dimensional_reduction/pca_reducer.py)

PCAReducer.fit trains sklearn PCA with n_components equal to
min(target_dim, number of columns of the input).  The eigensolver
itself is external library code; it is passed as a parameter whose
output, per the sklearn contract, is a components matrix with
n_components rows (each of the input width) and the centering mean.
PCAReducer.transform computes (X - mean) @ components.T and then
divides every row by its L2 norm plus the guard epsilon 1e-9. -/

structure PCAModel where
  mean : List ℝ
  components : List (List ℝ)

noncomputable def pcaEps : ℝ := 1 / 1000000000

/-- The _l2_normalize helper of pca_reducer.py, on one row. -/
noncomputable def l2NormalizeEps (v : List ℝ) : List ℝ :=
  v.map (fun x => x / (Real.sqrt (sumSq v) + pcaEps))

/-- One row of sklearn PCA transform: the centered row dotted with each
component row. -/
noncomputable def pcaProjectRow (mean : List ℝ) (components : List (List ℝ))
    (x : List ℝ) : List ℝ :=
  components.map (fun c => dot (List.zipWith (fun a b => a - b) x mean) c)

/-- PCAReducer.transform on a fitted or loaded model. -/
noncomputable def pcaTransform (m : PCAModel) (X : List (List ℝ)) : List (List ℝ) :=
  X.map (fun x => l2NormalizeEps (pcaProjectRow m.mean m.components x))

/-- PCAReducer.fit: n_comp = min(self.target_dim, X.shape[1]); the
external eigensolver is applied with that component count. -/
noncomputable def pcaFit (solver : Nat → List (List ℝ) → PCAModel) (targetDim : Nat)
    (X : List (List ℝ)) : PCAModel :=
  solver (min targetDim (X.headD []).length) X

/-- A shape-conforming stand-in for the sklearn eigensolver: column
means of the symmetric counterexample data are zero and the axis-aligned
unit vectors are valid principal components for it. -/
noncomputable def toySolver (k : Nat) (X : List (List ℝ)) : PCAModel :=
  { mean := List.replicate (X.headD []).length 0,
    components := (List.range k).map (fun i =>
      (List.range (X.headD []).length).map (fun j => if i = j then (1 : ℝ) else 0)) }

noncomputable def pcaFitData : List (List ℝ) := [[1, 0], [-1, 0], [0, 1], [0, -1]]

theorem pcaEps_pos : (0 : ℝ) < pcaEps := by
  rw [pcaEps]; norm_num

theorem sqrt_l2NormalizeEps (v : List ℝ) :
    Real.sqrt (sumSq (l2NormalizeEps v))
      = Real.sqrt (sumSq v) / (Real.sqrt (sumSq v) + pcaEps) := by
  rw [l2NormalizeEps]
  refine sqrt_sumSq_map_div v _ ?_
  have h1 := Real.sqrt_nonneg (sumSq v)
  have h2 := pcaEps_pos
  linarith

/-- C5 counterexample: target_dim 4, fit data of width 2 (so the fitted
model has min(4, 2) = 2 components), transform of the zero row: the
output row has 2 components, not 4, and its L2 norm is 0, not 1 (the
projection is the zero vector, and the epsilon guard maps it to the
zero vector again). -/
theorem pcaTransform_not_target_dim :
    (((pcaTransform (pcaFit toySolver 4 pcaFitData) [[0, 0]]).headD []).length = 2)
    ∧ ¬ (((pcaTransform (pcaFit toySolver 4 pcaFitData) [[0, 0]]).headD []).length = 4)
    ∧ Real.sqrt (sumSq ((pcaTransform (pcaFit toySolver 4 pcaFitData)
        [[0, 0]]).headD [])) ≠ 1 := by
  have hfit : pcaFit toySolver 4 pcaFitData
      = { mean := [0, 0], components := [[1, 0], [0, 1]] } := by
    simp [pcaFit, toySolver, pcaFitData, List.range_succ]
  have hrow : pcaTransform (pcaFit toySolver 4 pcaFitData) [[0, 0]] = [[0, 0]] := by
    rw [hfit]
    simp [pcaTransform, pcaProjectRow, l2NormalizeEps, dot, sumSq]
  rw [hrow]
  refine ⟨rfl, by decide, ?_⟩
  have : sumSq ([0, 0] : List ℝ) = 0 := by simp [sumSq]
  simp only [List.headD_cons, this, Real.sqrt_zero]
  norm_num

/-- C5 amended: for every fitted or loaded PCA model and input list,
transform returns one output row per input row; each output row has as
many components as the model has component rows — which for a model
produced by fit with a shape-conforming eigensolver is
min(target_dim, input width), not always target_dim — and each output
row has L2 norm equal to n / (n + 1e-9), where n is the norm of the PCA
projection of that row: strictly less than 1, approaching 1 for nonzero
projections, rather than exactly 1. -/
theorem pcaTransform_shape_and_norm (m : PCAModel) (X : List (List ℝ)) :
    (pcaTransform m X).length = X.length
    ∧ (∀ x ∈ X,
        (l2NormalizeEps (pcaProjectRow m.mean m.components x)).length
            = m.components.length
        ∧ Real.sqrt (sumSq (l2NormalizeEps (pcaProjectRow m.mean m.components x)))
            = Real.sqrt (sumSq (pcaProjectRow m.mean m.components x))
              / (Real.sqrt (sumSq (pcaProjectRow m.mean m.components x)) + pcaEps)
        ∧ Real.sqrt (sumSq (l2NormalizeEps (pcaProjectRow m.mean m.components x))) < 1)
    ∧ (∀ solver targetDim X0,
        (∀ k Y, ((solver k Y : PCAModel)).components.length = k) →
        (pcaFit solver targetDim X0).components.length
          = min targetDim (X0.headD []).length) := by
  refine ⟨by simp [pcaTransform], ?_, ?_⟩
  · intro x _hx
    have hnn : 0 ≤ Real.sqrt (sumSq (pcaProjectRow m.mean m.components x)) :=
      Real.sqrt_nonneg _
    have hpos : 0 < Real.sqrt (sumSq (pcaProjectRow m.mean m.components x)) + pcaEps := by
      have := pcaEps_pos
      linarith
    refine ⟨?_, sqrt_l2NormalizeEps _, ?_⟩
    · simp [l2NormalizeEps, pcaProjectRow]
    · rw [sqrt_l2NormalizeEps]
      rw [div_lt_one hpos]
      have := pcaEps_pos
      linarith
  · intro solver targetDim X0 hsolver
    rw [pcaFit, hsolver]

/-- Witness for the amended C5 at a concrete model, input and solver. -/
theorem pcaTransform_shape_and_norm_witness :
    (∀ k Y, ((toySolver k Y : PCAModel)).components.length = k)
    ∧ (pcaFit toySolver 4 pcaFitData).components.length
        = min 4 ((pcaFitData.headD []).length) :=
  ⟨fun k Y => by simp [toySolver],
   (pcaTransform_shape_and_norm { mean := [0, 0], components := [[1, 0], [0, 1]] }
       [[0, 0]]).2.2 toySolver 4 pcaFitData (fun k Y => by simp [toySolver])⟩

/-! ## Remote adapter cache (OpenAIEmbedder.create_embedding in
src/infra/embedding/openai_embedder.py)

The adapter keeps a diskcache keyed by the input text and makes API
requests; both are modelled as explicit state, with a request counter.
Texts are token-id sequences as in the token-chunking section, so
count_tokens is the length.  The api parameter is the provider response
for one input text; create_embeddings_batch embeds a batch with one
request, so the oversize path makes one request per batch. -/

structure EmbedderState where
  cache : List (List Nat × List ℝ)
  apiCalls : Nat

/-- BaseEmbedder._l2n with its epsilon 1e-8. -/
noncomputable def l2n (v : List ℝ) : List ℝ :=
  v.map (fun x => x / (Real.sqrt (sumSq v) + 1 / 100000000))

/-- OpenAIEmbedder.create_embedding.  The cached-vector fast path comes
first; a text within the model limit is embedded with one API request
and returned — without writing the cache; the oversize protocol
token-chunks the text, embeds the sub-chunks in batches, optionally
normalizes each, pools by strategy, optionally normalizes the result,
writes the cache and returns.  The chunking loop gets fuel as in
chunkByTokens; fuel exhaustion (the non-terminating configurations) is
an error value distinct from the ValueError raised when
chunk_max_tokens exceeds the model limit. -/
noncomputable def createEmbedding (api : List Nat → List ℝ) (maxTokens : Nat)
    (strategy : String) (chunkMaxTokens overlapTokens batchSize : Nat)
    (normalizeChunks normalizeOutput weightedByLength : Bool)
    (st : EmbedderState) (text : List Nat) :
    Except String (List ℝ × EmbedderState) :=
  match st.cache.find? (fun p => p.1 = text) with
  | some p => .ok (p.2, st)
  | none =>
    if text.length ≤ maxTokens then
      .ok ((if normalizeOutput then l2n (api text) else api text),
        { st with apiCalls := st.apiCalls + 1 })
    else if chunkMaxTokens > maxTokens then
      .error "chunk_max_tokens cannot exceed model limit"
    else
      match chunkByTokens text.length text chunkMaxTokens overlapTokens with
      | none => .error "token chunking loop does not terminate"
      | some chunks =>
        let embs := chunks.map api
        let nBatches := (chunks.length + batchSize - 1) / batchSize
        let vecs := if normalizeChunks then embs.map l2n else embs
        let weights := if strategy = "weighted" ∧ weightedByLength = true
          then some (chunks.map (fun c => (c.length : ℝ))) else none
        match pool vecs strategy weights with
        | .error _ => .error "pooling failed"
        | .ok pooled =>
          let out := if normalizeOutput then l2n pooled else pooled
          .ok (out, { cache := st.cache ++ [(text, out)],
                      apiCalls := st.apiCalls + nBatches })

/-- C6: at a one-token input (within the model limit), the first call
makes one API request and leaves the cache empty, so the repeated
identical call is not served from the cache: it makes a second API
request instead of returning a cached vector.  The small-text path
returns before the cache write, which only the oversize path
performs. -/
theorem createEmbedding_repeat_not_cached :
    ((createEmbedding (fun _ => [1]) 8191 "mean" 2048 128 64 true true true
        { cache := [], apiCalls := 0 } [7]).map
        (fun r => (r.2.cache, r.2.apiCalls)) = .ok ([], 1))
    ∧ ((createEmbedding (fun _ => [1]) 8191 "mean" 2048 128 64 true true true
        { cache := [], apiCalls := 1 } [7]).map
        (fun r => (r.2.cache, r.2.apiCalls)) = .ok ([], 2)) := by
  constructor <;> simp [createEmbedding, Except.map]

end PigeonEvals
